import Mathlib

/-!
Verification of the claude_code_transcripts repository: a shallow embedding
of the browse API (src/claude_code_transcripts/browse/api.py) and, where the
rendering module itself is not part of the sources at hand, models of the
rendering pipeline taken from the specification.

JSON values are embedded as an inductive type; Python dicts are
insertion-ordered association lists; a raised-and-caught exception is
modelled as Option.none.
-/

/-- JSON-like values as produced by json.loads on a session file: strings,
integers, booleans, null, arrays, and string-keyed objects
(insertion-ordered association lists). -/
inductive JValue where
  | str (s : String)
  | num (n : Int)
  | bool (b : Bool)
  | null
  | arr (items : List JValue)
  | obj (fields : List (String × JValue))

/-- Models Python dict.get with no default: the value at the key, if present
(first match; objects parsed from JSON have unique keys). -/
def dictGet (fields : List (String × JValue)) (key : String) : Option JValue :=
  match fields with
  | [] => none
  | (k, v) :: rest => if k == key then some v else dictGet rest key

mutual

/-- Models Python repr() on parsed-JSON values, as needed by str() on
containers. Escape sequences inside string reprs are not modelled (no claim
evaluates them). -/
def pyRepr : JValue → String
  | .str s => "\x27" ++ s ++ "\x27"
  | .num n => toString n
  | .bool true => "True"
  | .bool false => "False"
  | .null => "None"
  | .arr items => "[" ++ pyReprList items ++ "]"
  | .obj fields => "\x7b" ++ pyReprFields fields ++ "\x7d"

/-- Comma-separated reprs of the items of a Python list. -/
def pyReprList : List JValue → String
  | [] => ""
  | [v] => pyRepr v
  | v :: rest => pyRepr v ++ ", " ++ pyReprList rest

/-- Comma-separated key: value reprs of the entries of a Python dict. -/
def pyReprFields : List (String × JValue) → String
  | [] => ""
  | [(k, v)] => "\x27" ++ k ++ "\x27: " ++ pyRepr v
  | (k, v) :: rest => "\x27" ++ k ++ "\x27: " ++ pyRepr v ++ ", " ++ pyReprFields rest

end

/-- Models Python str(), as used by f-string interpolation: a str is itself,
everything else renders via repr-style formatting. -/
def pyStr : JValue → String
  | .str s => s
  | v => pyRepr v

/-- Models sep.join(parts) for Python strings. -/
def pyJoinSep (sep : String) : List String → String
  | [] => ""
  | [s] => s
  | s :: rest => s ++ sep ++ pyJoinSep sep rest

/-- Boolean prefix test on character lists. -/
def beginsWith : List Char → List Char → Bool
  | [], _ => true
  | _ :: _, [] => false
  | a :: as, b :: bs => a == b && beginsWith as bs

/-- Boolean contiguous-substring test on character lists. -/
def hasSegment (pat : List Char) : List Char → Bool
  | [] => pat.isEmpty
  | l@(_ :: rest) => beginsWith pat l || hasSegment pat rest

/-- The needle occurs as a contiguous substring of the haystack. -/
def strContains (s pat : String) : Bool :=
  hasSegment pat.data s.data

/-- Models _toggle_favorite (src/claude_code_transcripts/browse/api.py,
lines 55-65) acting on the persisted favorites store: _load_favorites reads
the JSON file \x7b"favorites": [...]\x7d into a Python set, the toggled set
is saved back by _save_favorites, and the returned Bool is the new status.
The persisted store is modelled by its membership as a Finset of ids. -/
def _toggle_favorite (favorites : Finset String) (session_id : String) :
    Bool × Finset String :=
  if session_id ∈ favorites then (false, favorites.erase session_id)
  else (true, insert session_id favorites)

/-- Models the favorites update done by a successful DELETE in
session_detail_or_delete (src/claude_code_transcripts/browse/api.py,
lines 189-197): after unlinking the session file, the id is removed from
the loaded favorites set and saved when present; otherwise the store is not
rewritten. -/
def deleteSessionFavorites (favorites : Finset String) (session_id : String) :
    Finset String :=
  if session_id ∈ favorites then favorites.erase session_id else favorites

/-- Whitespace characters stripped by Python str.strip(). -/
def pyIsSpace (c : Char) : Bool :=
  c == ' ' || c == '\t' || c == '\n' || c == '\r' || c == '\x0b' || c == '\x0c'

/-- Models Python str.strip(): removes whitespace at both ends. -/
def pyStrip (s : String) : String :=
  String.mk (((s.data.dropWhile pyIsSpace).reverse.dropWhile pyIsSpace).reverse)

/-- Modelled from the spec: is_json_like of the rendering module
claude_code_publish, which is not among the sources at hand (only its
tests, src/tests/test_generate_html.py lines 107-113, are). Per the spec, a
value is JSON-like iff it is a string that, after trimming whitespace, is
non-empty and starts with a left brace or a left bracket; actual JSON
parseability is not required. A Python Optional string is an
Option String. -/
def is_json_like (value : Option String) : Bool :=
  match value with
  | none => false
  | some s =>
    match (pyStrip s).data with
    | [] => false
    | c :: _ => c == '\x7b' || c == '['

/-- Modelled from the spec: is_tool_result_message of claude_code_publish
(not among the sources at hand; its tests are in
src/tests/test_generate_html.py lines 312-333). Per the spec it returns
true iff the message content is a list containing exactly one block and
that block's type is "tool_result". -/
def is_tool_result_message (message : JValue) : Bool :=
  match message with
  | .obj mf =>
    match (dictGet mf "content").getD .null with
    | .arr [b] =>
      match b with
      | .obj bf =>
        match dictGet bf "type" with
        | some (.str t) => t == "tool_result"
        | _ => false
      | _ => false
    | _ => false
  | _ => false

/-- ASCII lower-casing of one character, as Python str.lower() acts on the
ASCII tool names of the spec's examples. -/
def asciiLower (c : Char) : Char :=
  if 'A' ≤ c && c ≤ 'Z' then Char.ofNat (c.toNat + 32) else c

/-- Models Python str.lower() on ASCII strings. -/
def pyLower (s : String) : String :=
  String.mk (s.data.map asciiLower)

/-- Modelled from the spec: the stable ordering used by format_tool_stats —
tools sorted by descending count, ties broken by first-seen order. The new
entry is placed after every entry with an equal or larger count. -/
def insertByCount (p : String × Nat) : List (String × Nat) → List (String × Nat)
  | [] => [p]
  | q :: rest => if p.2 ≤ q.2 then q :: insertByCount p rest else p :: q :: rest

/-- Stable insertion sort by descending count; the mapping is an
insertion-ordered association list, like a Python dict. -/
def sortByCountDesc (l : List (String × Nat)) : List (String × Nat) :=
  l.foldl (fun acc p => insertByCount p acc) []

/-- Modelled from the spec: format_tool_stats of claude_code_publish (not
among the sources at hand; its tests are in src/tests/test_generate_html.py
lines 296-309). Per the spec (sections 4.4 and 8): the empty mapping yields
the empty string; otherwise a compact comma-separated string with one
"count lowercased-name" item per tool, sorted by descending count, ties in
first-seen order. -/
def format_tool_stats (counts : List (String × Nat)) : String :=
  pyJoinSep ", "
    ((sortByCountDesc counts).map (fun p => toString p.2 ++ " " ++ pyLower p.1))

/-- Models Python str.split on a single-character separator: splits at
every occurrence, keeping empty pieces. -/
def splitOnChar (c : Char) : List Char → List (List Char)
  | [] => [[]]
  | a :: rest =>
    if a == c then [] :: splitOnChar c rest
    else
      match splitOnChar c rest with
      | r :: rs => (a :: r) :: rs
      | [] => [[a]]

/-- Models content.split("\n"): the lines of a string. -/
def pySplitLines (s : String) : List String :=
  (splitOnChar '\n' s.data).map String.mk

/-- Splits at the first occurrence of a character: the part before it and
the part after it, or none when the character does not occur. -/
def breakAtChar (c : Char) : List Char → Option (List Char × List Char)
  | [] => none
  | a :: rest =>
    if a == c then some ([], rest)
    else (breakAtChar c rest).map (fun p => (a :: p.1, p.2))

/-- Modelled from the spec: the commit-line pattern "[<ref> <hash>] <message>"
used by the Conversation Analyzer of claude_code_publish (not among the
sources at hand; its tests are in src/tests/test_generate_html.py lines
272-293). A line matches when it starts with a left bracket, the bracketed
part is two space-separated non-empty words (ref and short hash), and the
message is the rest of the line after the closing bracket and one space;
the match yields (hash, message). -/
def parseCommitLine (line : String) : Option (String × String) :=
  match line.data with
  | '[' :: rest =>
    match breakAtChar ']' rest with
    | some (inside, after) =>
      match splitOnChar ' ' inside with
      | [ref, hash] =>
        if ref.isEmpty || hash.isEmpty then none
        else
          match after with
          | ' ' :: msg => some (String.mk hash, String.mk msg)
          | _ => none
      | _ => none
    | none => none
  | _ => none

/-- Modelled from the spec: every commit line found in one tool_result
string content, matched line by line in order (a stat line following a
commit line is not part of the message). -/
def extractCommits (content : String) : List (String × String) :=
  (pySplitLines content).filterMap parseCommitLine

/-- The content blocks of a message JSON: its "content" when that is a
list, nothing otherwise. -/
def messageBlocks (msg : JValue) : List JValue :=
  match msg with
  | .obj mf =>
    match dictGet mf "content" with
    | some (.arr blocks) => blocks
    | _ => []
  | _ => []

/-- Modelled from the spec: the commit references contributed by one
content block — those of a tool_result block whose content is a string. -/
def blockCommits (block : JValue) : List (String × String) :=
  match block with
  | .obj bf =>
    match dictGet bf "type" with
    | some (.str "tool_result") =>
      match dictGet bf "content" with
      | some (.str s) => extractCommits s
      | _ => []
    | _ => []
  | _ => []

/-- Modelled from the spec: the tool name counted for one content block — a
tool_use block's "name" when it is a string; a malformed or missing name is
skipped (not counted, not an error). -/
def blockToolName (block : JValue) : Option String :=
  match block with
  | .obj bf =>
    match dictGet bf "type" with
    | some (.str "tool_use") =>
      match dictGet bf "name" with
      | some (.str n) => some n
      | _ => none
    | _ => none
  | _ => none

/-- Increment a counter held as an insertion-ordered association list (a
Python dict used as a counter): an existing key keeps its position, a new
key is appended at the end. -/
def bump : List (String × Nat) → String → List (String × Nat)
  | [], name => [(name, 1)]
  | (n, k) :: rest, name =>
    if n == name then (n, k + 1) :: rest else (n, k) :: bump rest name

/-- Fold a list of names into the counter. -/
def bumpAll (counts : List (String × Nat)) (names : List String) :
    List (String × Nat) :=
  names.foldl bump counts

/-- Counter lookup with default 0. -/
def countGet (counts : List (String × Nat)) (name : String) : Nat :=
  match counts with
  | [] => 0
  | (n, k) :: rest => if n == name then k else countGet rest name

/-- Aggregate statistics over one whole session: the per-tool invocation
counter and the (hash, message) commit pairs in encounter order. -/
structure AnalysisResult where
  tool_counts : List (String × Nat)
  commits : List (String × String)

/-- The tool names counted for one (role, message, timestamp) turn: the
names of the tool_use blocks of an assistant turn's content; none for
other roles and for a turn whose JSON failed to parse (none). -/
def turnToolNames (turn : String × Option JValue × String) : List String :=
  match turn.2.1 with
  | none => []
  | some msg =>
    if turn.1 == "assistant" then (messageBlocks msg).filterMap blockToolName
    else []

/-- The commit pairs contributed by one turn, in block order; a turn whose
JSON failed to parse contributes nothing. -/
def turnCommits (turn : String × Option JValue × String) :
    List (String × String) :=
  match turn.2.1 with
  | none => []
  | some msg => ((messageBlocks msg).map blockCommits).flatten

/-- One scan step of the Analyzer over one turn. -/
def analyzeStep (acc : AnalysisResult) (turn : String × Option JValue × String) :
    AnalysisResult :=
  { tool_counts := bumpAll acc.tool_counts (turnToolNames turn)
    commits := acc.commits ++ turnCommits turn }

/-- Modelled from the spec (section 4.3): analyze_conversation of
claude_code_publish (not among the sources at hand; its tests are in
src/tests/test_generate_html.py lines 233-293). One linear scan over the
ordered (role, raw-message-json, timestamp) turns; a turn whose raw JSON
fails to parse is modelled as none and skipped without aborting; each
tool_use block of an assistant turn bumps the tool counter; commit lines
found in tool_result string contents are appended in encounter order. -/
def analyze_conversation (turns : List (String × Option JValue × String)) :
    AnalysisResult :=
  turns.foldl analyzeStep ⟨[], []⟩

/-- One renderable unit of the Page Composer: an HTML block tagged with its
approximate rendered size. -/
structure PageUnit where
  html : String
  size : Nat

/-- Total rendered size of a unit sequence. -/
def unitsTotal (units : List PageUnit) : Nat :=
  (units.map PageUnit.size).sum

/-- Modelled from the spec (section 4.4 step 2): greedy accumulation of
units into pages — accumulate into the current page until the running
size budget would be exceeded, then close the page and start a new one; a
single oversized unit is never split and no unit is dropped. cur holds the
current page's units in reverse; running is their total size. -/
def greedyGroup (budget : Nat) :
    List PageUnit → List PageUnit → Nat → List (List PageUnit)
  | [], cur, _ => if cur.isEmpty then [] else [cur.reverse]
  | u :: rest, cur, running =>
    if cur.isEmpty then greedyGroup budget rest [u] u.size
    else if running + u.size > budget then
      cur.reverse :: greedyGroup budget rest [u] u.size
    else greedyGroup budget rest (u :: cur) (running + u.size)

/-- The pages of a unit sequence under the budget, as unit groups. -/
def composePages (budget : Nat) (units : List PageUnit) :
    List (List PageUnit) :=
  greedyGroup budget units [] 0

/-- Left-pad with zeros to the given width. -/
def padZeros (width : Nat) (s : String) : String :=
  if s.length ≥ width then s
  else String.mk (List.replicate (width - s.length) '0') ++ s

/-- Modelled from the spec (section 4.4 step 3): the 1-based, zero-padded
page file name, page-NNN.html. -/
def pageFileName (n : Nat) : String :=
  "page-" ++ padZeros 3 (toString n) ++ ".html"

/-- One output page: 1-based sequence number, the file names its navigation
links point at (absent on the first/last page), the index link, and the
body HTML. -/
structure Page where
  seq : Nat
  prev : Option String
  next : Option String
  indexLink : String
  body : String

/-- Modelled from the spec (section 4.4 steps 3-4): the page at 0-based
position index among total pages — its previous/next links name the
adjacent pages and are absent on the first/last page; every page links back
to the index. -/
def mkPage (total index : Nat) (body : String) : Page :=
  { seq := index + 1
    prev := if index = 0 then none else some (pageFileName index)
    next := if index + 1 < total then some (pageFileName (index + 2)) else none
    indexLink := "index.html"
    body := body }

/-- Number a list of page bodies from the given 0-based position. -/
def numberPages (total : Nat) : Nat → List String → List Page
  | _, [] => []
  | i, b :: rest => mkPage total i b :: numberPages total (i + 1) rest

/-- Compose the pages of a unit sequence: group greedily, join each group's
unit HTML into a body, and number the pages. -/
def mkPages (budget : Nat) (units : List PageUnit) : List Page :=
  let groups := composePages budget units
  numberPages groups.length 0
    (groups.map (fun g => pyJoinSep "\n" (g.map PageUnit.html)))

/-- Serialize one page's navigation links. -/
def navHtml (p : Page) : String :=
  (match p.prev with
   | some f => "<a href=\"" ++ f ++ "\">Previous</a> "
   | none => "") ++
  "<a href=\"" ++ p.indexLink ++ "\">Index</a>" ++
  (match p.next with
   | some f => " <a href=\"" ++ f ++ "\">Next</a>"
   | none => "")

/-- Serialize one page. -/
def pageHtml (p : Page) : String :=
  "<html><body>" ++ navHtml p ++ p.body ++ navHtml p ++ "</body></html>"

/-- Modelled from the spec (section 1): HTML escaping of one character of
user-supplied text. -/
def escapeHtmlChar (c : Char) : String :=
  if c = '&' then "&amp;"
  else if c = '<' then "&lt;"
  else if c = '>' then "&gt;"
  else if c = '\x22' then "&quot;"
  else String.mk [c]

/-- HTML escaping of user-supplied text, per the spec's injection-safety
guarantee. -/
def escapeHtml (s : String) : String :=
  pyJoinSep "" (s.data.map escapeHtmlChar)

/-- First element on which f succeeds. -/
def firstSome {α β : Type} (f : α → Option β) : List α → Option β
  | [] => none
  | a :: rest =>
    match f a with
    | some b => some b
    | none => firstSome f rest

/-- The suffix after the first occurrence of the segment, if any. -/
def afterSeg (pat : List Char) : List Char → Option (List Char)
  | [] => if pat.isEmpty then some [] else none
  | l@(_ :: rest) =>
    if beginsWith pat l then some (List.drop pat.length l) else afterSeg pat rest

/-- Drop a trailing ".git" from a repository path. -/
def stripDotGit (cs : List Char) : List Char :=
  if beginsWith ".git".data.reverse cs.reverse then (cs.reverse.drop 4).reverse
  else cs

/-- Modelled from the spec (section 4.4 step 6): the owner/repo slug read
off one line of git push output — the hostname/org/repo pattern after
"github.com/", up to whitespace, with a trailing ".git" dropped. -/
def repoFromLine (line : String) : Option String :=
  (afterSeg "github.com/".data line.data).map (fun suffix =>
    String.mk (stripDotGit (suffix.takeWhile (fun c => !(pyIsSpace c)))))

/-- The tool_result string contents of one log entry. -/
def entryToolResultStrings (entry : JValue) : List String :=
  match entry with
  | .obj ef =>
    (messageBlocks ((dictGet ef "message").getD .null)).filterMap (fun b =>
      match b with
      | .obj bf =>
        match dictGet bf "type", dictGet bf "content" with
        | some (.str "tool_result"), some (.str s) => some s
        | _, _ => none
      | _ => none)
  | _ => []

/-- Modelled from the spec: detect_github_repo of claude_code_publish (not
among the sources at hand; its test is src/tests/test_generate_html.py
lines 82-86): scan tool_result contents for a recognizable git push
line holding a hostname/org/repo pattern and adopt the first match. -/
def detect_github_repo (loglines : List JValue) : Option String :=
  firstSome (fun entry =>
    firstSome (fun s => firstSome repoFromLine (pySplitLines s))
      (entryToolResultStrings entry)) loglines

/-- Modelled from the spec (section 4.1): rendering of one content block by
the core Content-Block Renderer — user text is HTML-escaped (the external
markdown helper is modelled by escaping); a tool_use block renders a
labeled, escaped view of its input; a tool_result block renders its lines
with commit lines hyperlinked when a repository slug is known; unknown
block types render as the empty string. -/
def renderBlock (slug : Option String) (block : JValue) : String :=
  match block with
  | .obj bf =>
    match dictGet bf "type" with
    | some (.str "text") =>
      match dictGet bf "text" with
      | some (.str s) =>
        if s.isEmpty then "" else "<div class=\"text\">" ++ escapeHtml s ++ "</div>"
      | _ => ""
    | some (.str "thinking") =>
      match dictGet bf "thinking" with
      | some (.str s) =>
        if s.isEmpty then ""
        else "<details class=\"thinking\">" ++ escapeHtml s ++ "</details>"
      | _ => ""
    | some (.str "tool_use") =>
      "<div class=\"tool-use\"><b>" ++
        escapeHtml (pyStr ((dictGet bf "name").getD (.str ""))) ++ "</b><pre>" ++
        escapeHtml (pyStr ((dictGet bf "input").getD (.obj []))) ++ "</pre></div>"
    | some (.str "tool_result") =>
      match dictGet bf "content" with
      | some (.str s) =>
        "<pre class=\"tool-result\">" ++
          pyJoinSep "\n" ((pySplitLines s).map (fun line =>
            match slug, parseCommitLine line with
            | some repo, some (hash, msg) =>
              "[<a href=\"https://github.com/" ++ repo ++ "/commit/" ++ hash ++
                "\">" ++ hash ++ "</a>] " ++ escapeHtml msg
            | _, _ => escapeHtml line)) ++ "</pre>"
      | _ => ""
    | _ => ""
  | _ => ""

/-- Modelled from the spec: the content branch of entry rendering by the
core renderer — string content is escaped text, list content renders each
block, anything else renders as the empty string. -/
def renderEntryContent (slug : Option String) (content : Option JValue) : String :=
  match content with
  | some (.str s) => "<div class=\"turn\">" ++ escapeHtml s ++ "</div>"
  | some (.arr blocks) =>
    "<div class=\"turn\">" ++
      pyJoinSep "" (blocks.map (renderBlock slug)) ++ "</div>"
  | _ => ""

/-- The message step of entry rendering: read the message's content. -/
def renderEntryMsg (slug : Option String) (message : JValue) : String :=
  match message with
  | .obj mf => renderEntryContent slug (dictGet mf "content")
  | _ => ""

/-- Modelled from the spec: the rendering of one log entry to one HTML
block by the core renderer. -/
def renderEntry (slug : Option String) (entry : JValue) : String :=
  match entry with
  | .obj ef => renderEntryMsg slug ((dictGet ef "message").getD .null)
  | _ => ""

/-- One log entry as a renderable unit, tagged with its rendered size. -/
def entryUnit (slug : Option String) (entry : JValue) : PageUnit :=
  { html := renderEntry slug entry, size := (renderEntry slug entry).length }

/-- One log entry as an Analyzer turn: its type, message and timestamp. -/
def entryTurn (entry : JValue) : String × Option JValue × String :=
  match entry with
  | .obj ef =>
    ((match dictGet ef "type" with
      | some (.str t) => t
      | _ => ""),
     dictGet ef "message",
     (match dictGet ef "timestamp" with
      | some (.str ts) => ts
      | _ => ""))
  | _ => ("", none, "")

/-- The ambient module-level mutable state of claude_code_publish consulted
by commit rendering: the repository slug global (the test file manipulates
claude_code_publish._github_repo directly). -/
structure RenderGlobals where
  github_repo : Option String

/-- Modelled from the spec: generate_html of claude_code_publish (not among
the sources at hand; its tests are in src/tests/test_generate_html.py lines
55-86). Renders one parsed session into its output files as
(file name, contents) pairs: resolves the repository slug from the explicit
configuration or, failing that, auto-detection; stores it into the
module-level global consulted by commit rendering; renders every entry to a
sized unit; composes pages under the size budget; and emits index.html
(with the Analyzer's formatted tool statistics and the page list) plus one
page-NNN.html per page. The ambient global state before the call is the
RenderGlobals argument; the state after is returned alongside the files
(the spec: no shared mutable state crosses render invocations). -/
def generate_html (loglines : List JValue) (github_repo : Option String)
    (pageBudget : Nat) (_g : RenderGlobals) :
    RenderGlobals × List (String × String) :=
  let slug :=
    match github_repo with
    | some r => some r
    | none => detect_github_repo loglines
  let g2 : RenderGlobals := { github_repo := slug }
  let units := loglines.map (entryUnit g2.github_repo)
  let pages := mkPages pageBudget units
  let analysis := analyze_conversation (loglines.map entryTurn)
  let indexHtml :=
    "<html><body><h1>Session</h1><p>" ++ format_tool_stats analysis.tool_counts ++
      "</p><ul>" ++
      pyJoinSep "" (pages.map (fun p =>
        "<li><a href=\"" ++ pageFileName p.seq ++ "\">Page " ++ toString p.seq ++
          "</a></li>")) ++ "</ul></body></html>"
  (g2, ("index.html", indexHtml) :: pages.map (fun p => (pageFileName p.seq, pageHtml p)))

/-- The test scenario of test_counts_tools: one assistant turn holding two
tool_use blocks named "Bash" and one named "Write". -/
def c5TestTurn : String × Option JValue × String :=
  ("assistant",
   some (JValue.obj [("content", JValue.arr
     [JValue.obj [("type", JValue.str "tool_use"), ("name", JValue.str "Bash"),
        ("id", JValue.str "1"), ("input", JValue.obj [])],
      JValue.obj [("type", JValue.str "tool_use"), ("name", JValue.str "Bash"),
        ("id", JValue.str "2"), ("input", JValue.obj [])],
      JValue.obj [("type", JValue.str "tool_use"), ("name", JValue.str "Write"),
        ("id", JValue.str "3"), ("input", JValue.obj [])]])]),
   "2025-01-01T00:00:00Z")

/-- The test scenario of test_extracts_commits: one turn holding one
tool_result block whose content is a commit line followed by a stat line. -/
def c4TestTurn : String × Option JValue × String :=
  ("user",
   some (JValue.obj [("content", JValue.arr
     [JValue.obj [("type", JValue.str "tool_result"),
        ("content", JValue.str "[main abc1234] Add new feature\n 1 file changed")]])]),
   "2025-01-01T00:00:00Z")

theorem beginsWith_iff (pat l : List Char) :
    beginsWith pat l = true ↔ pat <+: l := by
  induction pat generalizing l with
  | nil => simp [beginsWith]
  | cons a as ih =>
    cases l with
    | nil => simp [beginsWith]
    | cons b bs =>
      simp [beginsWith, List.cons_prefix_cons, ih]

theorem hasSegment_iff (pat l : List Char) :
    hasSegment pat l = true ↔ pat <:+: l := by
  induction l with
  | nil =>
    cases pat <;> simp [hasSegment, List.isEmpty]
  | cons b bs ih =>
    simp [hasSegment, beginsWith_iff, ih, List.infix_cons_iff]

theorem strContains_iff (s pat : String) :
    strContains s pat = true ↔ pat.data <:+: s.data := by
  simp [strContains, hasSegment_iff]

theorem subOfAppendRight {α : Type} {l l₂ : List α} (l₁ : List α)
    (h : l <:+: l₂) : l <:+: l₁ ++ l₂ := by
  obtain ⟨s, t, rfl⟩ := h
  exact ⟨l₁ ++ s, t, by simp⟩

theorem subOfAppendLeft {α : Type} {l l₁ : List α} (l₂ : List α)
    (h : l <:+: l₁) : l <:+: l₁ ++ l₂ := by
  obtain ⟨s, t, rfl⟩ := h
  exact ⟨s, t ++ l₂, by simp⟩

theorem mem_pyJoinSep_sub (sep : String) (parts : List String) (s : String)
    (h : s ∈ parts) : s.data <:+: (pyJoinSep sep parts).data := by
  induction parts with
  | nil => cases h
  | cons p rest ih =>
    cases rest with
    | nil =>
      have hs : s = p := List.mem_singleton.mp h
      subst hs
      exact List.infix_refl _
    | cons q rest2 =>
      rcases List.mem_cons.mp h with h1 | hmem
      · subst h1
        rw [show pyJoinSep sep (s :: q :: rest2) =
              s ++ sep ++ pyJoinSep sep (q :: rest2) from rfl]
        rw [String.data_append, String.data_append]
        exact subOfAppendLeft _ (subOfAppendLeft _ (List.infix_refl _))
      · rw [show pyJoinSep sep (p :: q :: rest2) =
              p ++ sep ++ pyJoinSep sep (q :: rest2) from rfl]
        rw [String.data_append]
        exact subOfAppendRight _ (ih hmem)

/-- Claim C9: toggling a favorite twice with the same id restores the
persisted favorites set to exactly its original membership; the two calls
return opposite booleans, the first returning true iff the id was not
initially favorited. -/
theorem c9_toggle_twice (favs : Finset String) (id : String) :
    (_toggle_favorite (_toggle_favorite favs id).2 id).2 = favs ∧
    (_toggle_favorite (_toggle_favorite favs id).2 id).1 =
      !(_toggle_favorite favs id).1 ∧
    ((_toggle_favorite favs id).1 = true ↔ id ∉ favs) := by
  by_cases h : id ∈ favs
  · simp [_toggle_favorite, h, Finset.insert_erase]
  · simp [_toggle_favorite, h, Finset.erase_insert]

/-- Claim C10: a successful DELETE of a session removes its id from the
persisted favorites set when present, leaves every other favorite
unchanged, and leaves the set unchanged when the id was not a favorite. -/
theorem c10_delete_favorites (favs : Finset String) (id : String) :
    id ∉ deleteSessionFavorites favs id ∧
    (∀ x, x ≠ id → (x ∈ deleteSessionFavorites favs id ↔ x ∈ favs)) ∧
    (id ∉ favs → deleteSessionFavorites favs id = favs) := by
  by_cases h : id ∈ favs
  · refine ⟨?_, ?_, ?_⟩
    · simp [deleteSessionFavorites, h]
    · intro x hx
      simp [deleteSessionFavorites, h, Finset.mem_erase, hx]
    · intro hid
      exact absurd h hid
  · exact ⟨by simp [deleteSessionFavorites, h, h], by
      intro x hx
      simp [deleteSessionFavorites, h], by
      intro _
      simp [deleteSessionFavorites, h]⟩

/-- Witness for c10_delete_favorites at a concrete favorites store. -/
theorem c10_delete_favorites_witness :
    ("a" ∉ deleteSessionFavorites {"a", "b"} "a") ∧
    ("b" ∈ deleteSessionFavorites {"a", "b"} "a" ↔
      "b" ∈ ({"a", "b"} : Finset String)) ∧
    (deleteSessionFavorites {"a", "b"} "c" = {"a", "b"}) :=
  ⟨(c10_delete_favorites {"a", "b"} "a").1,
   (c10_delete_favorites {"a", "b"} "a").2.1 "b" (by decide),
   (c10_delete_favorites {"a", "b"} "c").2.2 (by decide)⟩

/-- Claim C8: is_json_like is true iff the input is a string that, after
trimming whitespace, is non-empty and starts with a left brace or a left
bracket; it is false for None, the empty string and plain text, and does
not require the string to parse as JSON. -/
theorem c8_is_json_like :
    (∀ s : String, is_json_like (some s) = true ↔
      ((pyStrip s).data ≠ [] ∧
        ((pyStrip s).data.head? = some '\x7b' ∨ (pyStrip s).data.head? = some '['))) ∧
    is_json_like none = false ∧
    is_json_like (some "") = false ∧
    is_json_like (some "plain text") = false ∧
    is_json_like (some "  \x7bnot actually json") = true ∧
    is_json_like (some " [1, 2") = true := by
  refine ⟨?_, rfl, by decide, by decide, by decide, by decide⟩
  intro s
  cases h : (pyStrip s).data with
  | nil => simp [is_json_like, h]
  | cons c rest => simp [is_json_like, h]

/-- Claim C7: for every message value, is_tool_result_message returns true
if and only if the message's content is a list containing exactly one
block and that block's type is "tool_result"; concretely it accepts the
singleton tool_result message and rejects mixed content, the empty list,
string content, missing content, non-list content and a singleton
non-dict block. -/
theorem c7_is_tool_result_message :
    (∀ message : JValue,
      is_tool_result_message message = true ↔
        ∃ mf bf, message = JValue.obj mf ∧
          (dictGet mf "content").getD JValue.null
            = JValue.arr [JValue.obj bf] ∧
          dictGet bf "type" = some (JValue.str "tool_result")) ∧
    is_tool_result_message (JValue.obj [("content", JValue.arr
      [JValue.obj [("type", JValue.str "tool_result"),
        ("content", JValue.str "result")]])]) = true ∧
    is_tool_result_message (JValue.obj [("content", JValue.arr
      [JValue.obj [("type", JValue.str "text"), ("text", JValue.str "hello")],
       JValue.obj [("type", JValue.str "tool_result"),
        ("content", JValue.str "result")]])]) = false ∧
    is_tool_result_message (JValue.obj [("content", JValue.arr [])]) = false ∧
    is_tool_result_message (JValue.obj [("content", JValue.str "string")]) = false ∧
    is_tool_result_message (JValue.obj []) = false ∧
    is_tool_result_message (JValue.obj [("content", JValue.num 3)]) = false ∧
    is_tool_result_message (JValue.obj [("content", JValue.arr
      [JValue.str "x"])]) = false := by
  refine ⟨?_, rfl, rfl, rfl, rfl, rfl, rfl, rfl⟩
  intro message
  constructor
  · intro h
    cases message with
    | str s => exact Bool.noConfusion h
    | num n => exact Bool.noConfusion h
    | bool b => exact Bool.noConfusion h
    | null => exact Bool.noConfusion h
    | arr items => exact Bool.noConfusion h
    | obj mf =>
      have he : is_tool_result_message (JValue.obj mf) =
          (match (dictGet mf "content").getD JValue.null with
            | .arr [b] =>
              (match b with
                | .obj bf =>
                  (match dictGet bf "type" with
                    | some (.str t) => t == "tool_result"
                    | _ => false)
                | _ => false)
            | _ => false) := rfl
      rw [he] at h
      cases hc : (dictGet mf "content").getD JValue.null with
      | str s2 => rw [hc] at h; exact Bool.noConfusion h
      | num n2 => rw [hc] at h; exact Bool.noConfusion h
      | bool b2 => rw [hc] at h; exact Bool.noConfusion h
      | null => rw [hc] at h; exact Bool.noConfusion h
      | obj o2 => rw [hc] at h; exact Bool.noConfusion h
      | arr blocks =>
        rw [hc] at h
        cases blocks with
        | nil => exact Bool.noConfusion h
        | cons b rest =>
          cases rest with
          | cons b2 rest2 => exact Bool.noConfusion h
          | nil =>
            cases b with
            | str s3 => exact Bool.noConfusion h
            | num n3 => exact Bool.noConfusion h
            | bool b3 => exact Bool.noConfusion h
            | null => exact Bool.noConfusion h
            | arr a3 => exact Bool.noConfusion h
            | obj bf =>
              have h2 : (match dictGet bf "type" with
                  | some (.str t) => t == "tool_result"
                  | _ => false) = true := h
              cases ht : dictGet bf "type" with
              | none => rw [ht] at h2; exact Bool.noConfusion h2
              | some v =>
                rw [ht] at h2
                cases v with
                | str t =>
                  have hb : (t == "tool_result") = true := h2
                  have hteq : t = "tool_result" := eq_of_beq hb
                  subst hteq
                  exact ⟨mf, bf, rfl, hc, ht⟩
                | num n4 => exact Bool.noConfusion h2
                | bool b4 => exact Bool.noConfusion h2
                | null => exact Bool.noConfusion h2
                | arr a4 => exact Bool.noConfusion h2
                | obj o4 => exact Bool.noConfusion h2
  · rintro ⟨mf, bf, rfl, hc, ht⟩
    have he : is_tool_result_message (JValue.obj mf) =
        (match (dictGet mf "content").getD JValue.null with
          | .arr [b] =>
            (match b with
              | .obj bf =>
                (match dictGet bf "type" with
                  | some (.str t) => t == "tool_result"
                  | _ => false)
              | _ => false)
          | _ => false) := rfl
    rw [he, hc]
    show (match dictGet bf "type" with
      | some (.str t) => t == "tool_result"
      | _ => false) = true
    rw [ht]
    rfl

/-- Witness for c7_is_tool_result_message at a concrete message, via the
biconditional. -/
theorem c7_is_tool_result_message_witness :
    is_tool_result_message (JValue.obj [("content", JValue.arr
      [JValue.obj [("type", JValue.str "tool_result")]])]) = true ∧
    is_tool_result_message (JValue.str "plain") = false :=
  ⟨(c7_is_tool_result_message.1 _).mpr
      ⟨[("content", JValue.arr [JValue.obj [("type", JValue.str "tool_result")]])],
       [("type", JValue.str "tool_result")], rfl, rfl, rfl⟩,
   rfl⟩

theorem insertByCount_perm (p : String × Nat) (l : List (String × Nat)) :
    List.Perm (insertByCount p l) (p :: l) := by
  induction l with
  | nil => exact List.Perm.refl _
  | cons q rest ih =>
    by_cases h : p.2 ≤ q.2
    · simp only [insertByCount, if_pos h]
      exact (ih.cons q).trans (List.Perm.swap p q rest)
    · simp [insertByCount, if_neg h]

theorem insertByCount_sorted (p : String × Nat) (l : List (String × Nat))
    (h : List.Sorted (fun a b => b.2 ≤ a.2) l) :
    List.Sorted (fun a b => b.2 ≤ a.2) (insertByCount p l) := by
  induction l with
  | nil => simp [insertByCount]
  | cons q rest ih =>
    rw [List.sorted_cons] at h
    obtain ⟨hq, hrest⟩ := h
    by_cases hpq : p.2 ≤ q.2
    · simp only [insertByCount, if_pos hpq]
      rw [List.sorted_cons]
      refine ⟨?_, ih hrest⟩
      intro b hb
      rcases List.mem_cons.mp ((insertByCount_perm p rest).mem_iff.mp hb) with h1 | h2
      · subst h1
        exact hpq
      · exact hq b h2
    · simp only [insertByCount, if_neg hpq]
      rw [List.sorted_cons]
      refine ⟨?_, List.sorted_cons.mpr ⟨hq, hrest⟩⟩
      intro b hb
      rcases List.mem_cons.mp hb with rfl | h2
      · exact le_of_lt (Nat.lt_of_not_le hpq)
      · exact le_trans (hq b h2) (le_of_lt (Nat.lt_of_not_le hpq))

theorem foldl_insert_sorted (l : List (String × Nat)) (acc : List (String × Nat))
    (h : List.Sorted (fun a b => b.2 ≤ a.2) acc) :
    List.Sorted (fun a b => b.2 ≤ a.2)
      (l.foldl (fun acc p => insertByCount p acc) acc) := by
  induction l generalizing acc with
  | nil => exact h
  | cons p rest ih => exact ih _ (insertByCount_sorted p acc h)

theorem sortByCountDesc_sorted (l : List (String × Nat)) :
    List.Sorted (fun a b => b.2 ≤ a.2) (sortByCountDesc l) :=
  foldl_insert_sorted l [] (by simp)

theorem foldl_insert_perm (l : List (String × Nat)) (acc : List (String × Nat)) :
    List.Perm (l.foldl (fun acc p => insertByCount p acc) acc) (acc ++ l) := by
  induction l generalizing acc with
  | nil => simp
  | cons p rest ih =>
    refine (ih (insertByCount p acc)).trans ?_
    refine (List.Perm.append_right rest (insertByCount_perm p acc)).trans ?_
    exact List.perm_middle.symm

theorem sortByCountDesc_perm (l : List (String × Nat)) :
    List.Perm (sortByCountDesc l) l := by
  simpa [sortByCountDesc] using foldl_insert_perm l []

theorem insertByCount_filter (p : String × Nat) (l : List (String × Nat))
    (h : List.Sorted (fun a b => b.2 ≤ a.2) l) (c : Nat) :
    (insertByCount p l).filter (fun q => q.2 == c) =
      l.filter (fun q => q.2 == c) ++ List.filter (fun q => q.2 == c) [p] := by
  induction l with
  | nil => simp [insertByCount]
  | cons q rest ih =>
    rw [List.sorted_cons] at h
    obtain ⟨hq, hrest⟩ := h
    by_cases hpq : p.2 ≤ q.2
    · simp only [insertByCount, if_pos hpq, List.filter_cons]
      rw [ih hrest]
      by_cases hqc : (q.2 == c) = true <;> simp [hqc, List.filter_singleton]
    · simp only [insertByCount, if_neg hpq]
      by_cases hpc : (p.2 == c) = true
      · have hqlt : q.2 < p.2 := Nat.lt_of_not_le hpq
        have hfe : (q :: rest).filter (fun q => q.2 == c) = [] := by
          rw [List.filter_eq_nil_iff]
          intro b hb
          have hble : b.2 ≤ q.2 := by
            rcases List.mem_cons.mp hb with rfl | h2
            · exact le_refl _
            · exact hq b h2
          have hlt : b.2 < p.2 := lt_of_le_of_lt hble hqlt
          have hc : p.2 = c := beq_iff_eq.mp hpc
          simp only [beq_iff_eq]
          omega
        rw [List.filter_cons, if_pos hpc, hfe]
        simp [hpc]
      · rw [List.filter_cons, if_neg hpc]
        simp [hpc]

theorem foldl_insert_filter (l : List (String × Nat)) (acc : List (String × Nat))
    (h : List.Sorted (fun a b => b.2 ≤ a.2) acc) (c : Nat) :
    (l.foldl (fun acc p => insertByCount p acc) acc).filter (fun q => q.2 == c) =
      acc.filter (fun q => q.2 == c) ++ l.filter (fun q => q.2 == c) := by
  induction l generalizing acc with
  | nil => simp
  | cons p rest ih =>
    rw [List.foldl_cons, ih _ (insertByCount_sorted p acc h),
      insertByCount_filter p acc h c, List.filter_cons]
    cases hpc : (p.2 == c) <;> simp [List.filter_cons, hpc, List.append_assoc]

theorem sortByCountDesc_filter (l : List (String × Nat)) (c : Nat) :
    (sortByCountDesc l).filter (fun q => q.2 == c) =
      l.filter (fun q => q.2 == c) := by
  simpa [sortByCountDesc] using foldl_insert_filter l [] (by simp) c

/-- Claim C6: format_tool_stats of the empty mapping is the empty string;
for a non-empty mapping the output contains one "count lowercased-name"
item per entry; the listing order is by descending count (sorted), lists
exactly the given tools (permutation), and breaks ties by first-seen order
(the entries of any fixed count keep their original relative order);
on the spec's example the output is exactly "5 bash, 3 read, 1 write". -/
theorem c6_format_tool_stats :
    format_tool_stats [] = "" ∧
    (∀ (counts : List (String × Nat)) (p : String × Nat), p ∈ counts →
      strContains (format_tool_stats counts)
        (toString p.2 ++ " " ++ pyLower p.1) = true) ∧
    (∀ counts : List (String × Nat),
      List.Sorted (fun a b => b.2 ≤ a.2) (sortByCountDesc counts)) ∧
    (∀ counts : List (String × Nat), List.Perm (sortByCountDesc counts) counts) ∧
    (∀ (counts : List (String × Nat)) (c : Nat),
      (sortByCountDesc counts).filter (fun q => q.2 == c) =
        counts.filter (fun q => q.2 == c)) ∧
    format_tool_stats [("Bash", 5), ("Read", 3), ("Write", 1)]
      = "5 bash, 3 read, 1 write" := by
  refine ⟨rfl, ?_, sortByCountDesc_sorted, sortByCountDesc_perm,
    sortByCountDesc_filter, by decide⟩
  intro counts p hp
  rw [strContains_iff]
  have hmem : p ∈ sortByCountDesc counts :=
    (sortByCountDesc_perm counts).mem_iff.mpr hp
  have hitem : (toString p.2 ++ " " ++ pyLower p.1) ∈
      (sortByCountDesc counts).map (fun p => toString p.2 ++ " " ++ pyLower p.1) :=
    List.mem_map_of_mem _ hmem
  exact mem_pyJoinSep_sub ", " _ _ hitem

/-- Witness for c6_format_tool_stats at the spec's example mapping. -/
theorem c6_format_tool_stats_witness :
    (("Read", 3) : String × Nat) ∈ [("Bash", 5), ("Read", 3), ("Write", 1)] ∧
    strContains (format_tool_stats [("Bash", 5), ("Read", 3), ("Write", 1)])
      (toString 3 ++ " " ++ pyLower "Read") = true :=
  ⟨by decide, c6_format_tool_stats.2.1 _ ("Read", 3) (by decide)⟩

theorem countGet_bump (counts : List (String × Nat)) (n m : String) :
    countGet (bump counts n) m = countGet counts m + (if n == m then 1 else 0) := by
  induction counts with
  | nil => simp [bump, countGet]
  | cons p rest ih =>
    obtain ⟨pn, pk⟩ := p
    by_cases hpn : pn = n
    · subst hpn
      by_cases hm : pn = m
      · subst hm
        simp [bump, countGet]
      · simp [bump, countGet, hm, beq_iff_eq]
    · by_cases hm : pn = m
      · subst hm
        have hnm : ¬(n = pn) := fun h => hpn h.symm
        simp [bump, countGet, beq_iff_eq, hpn, hnm]
      · simp [bump, countGet, beq_iff_eq, hpn, hm, ih]

theorem countGet_bumpAll (names : List String) (counts : List (String × Nat))
    (m : String) :
    countGet (bumpAll counts names) m = countGet counts m + names.count m := by
  induction names generalizing counts with
  | nil => simp [bumpAll]
  | cons n rest ih =>
    rw [show bumpAll counts (n :: rest) = bumpAll (bump counts n) rest from rfl]
    rw [ih, countGet_bump, List.count_cons]
    rcases Bool.eq_false_or_eq_true (n == m) with h | h <;> simp [h] <;> omega

theorem analyze_commits_fold (turns : List (String × Option JValue × String))
    (acc : AnalysisResult) :
    (turns.foldl analyzeStep acc).commits =
      acc.commits ++ (turns.map turnCommits).flatten := by
  induction turns generalizing acc with
  | nil => simp
  | cons t rest ih =>
    rw [List.foldl_cons, ih]
    simp [analyzeStep, List.append_assoc]

theorem analyze_counts_fold (turns : List (String × Option JValue × String))
    (acc : AnalysisResult) (m : String) :
    countGet (turns.foldl analyzeStep acc).tool_counts m =
      countGet acc.tool_counts m +
        (turns.map (fun t => (turnToolNames t).count m)).sum := by
  induction turns generalizing acc with
  | nil => simp
  | cons t rest ih =>
    rw [List.foldl_cons, ih]
    simp [analyzeStep, countGet_bumpAll]
    omega

/-- Claim C5: analyze_conversation counts, for every tool name, exactly the
tool_use blocks carrying that name inside assistant turns (the turn's
counted names are the names of its content's tool_use blocks, with
malformed or missing names skipped, not counted, not an error); on the
test's assistant turn with two "Bash" blocks and one "Write" block the
counts are Bash 2 and Write 1, and a nameless tool_use block leaves the
counter untouched. -/
theorem c5_tool_counts :
    (∀ (turns : List (String × Option JValue × String)) (name : String),
      countGet (analyze_conversation turns).tool_counts name =
        (turns.map (fun t => (turnToolNames t).count name)).sum) ∧
    countGet (analyze_conversation [c5TestTurn]).tool_counts "Bash" = 2 ∧
    countGet (analyze_conversation [c5TestTurn]).tool_counts "Write" = 1 ∧
    (analyze_conversation [("assistant",
        some (JValue.obj [("content", JValue.arr
          [JValue.obj [("type", JValue.str "tool_use"),
            ("id", JValue.str "1")]])]),
        "2025-01-01T00:00:00Z")]).tool_counts = [] := by
  refine ⟨?_, rfl, rfl, rfl⟩
  intro turns name
  have h := analyze_counts_fold turns ⟨[], []⟩ name
  simpa [analyze_conversation, countGet] using h

/-- Claim C4: analyze_conversation appends the (hash, message) pairs of the
commit lines found in tool_result string contents in encounter order (the
whole commit list is the in-order concatenation of the per-turn
extractions); the pattern matches line by line, so the message is the
commit subject only and excludes a following stat line, and multiple
commit lines in one tool_result are extracted independently; on the test's
content the result is exactly [("abc1234", "Add new feature")]. -/
theorem c4_commits :
    (∀ turns : List (String × Option JValue × String),
      (analyze_conversation turns).commits = (turns.map turnCommits).flatten) ∧
    parseCommitLine "[main abc1234] Add new feature"
      = some ("abc1234", "Add new feature") ∧
    extractCommits "[main abc1234] Add new feature\n 1 file changed"
      = [("abc1234", "Add new feature")] ∧
    (analyze_conversation [c4TestTurn]).commits
      = [("abc1234", "Add new feature")] ∧
    extractCommits "[main aaa1111] First\n[dev bbb2222] Second"
      = [("aaa1111", "First"), ("bbb2222", "Second")] := by
  refine ⟨?_, rfl, rfl, rfl, rfl⟩
  intro turns
  have h := analyze_commits_fold turns ⟨[], []⟩
  simpa [analyze_conversation] using h

/-- Claim C2: rendering is deterministic and independent of ambient mutable
state: the output file set of generate_html is a pure function of the
session and the configured repository slug — two runs started from
arbitrary prior global states produce byte-identical outputs, and an
immediate re-run from the state the first run left behind reproduces the
first run's output exactly. -/
theorem c2_generate_html_deterministic (loglines : List JValue)
    (cfg : Option String) (budget : Nat) (g1 g2 : RenderGlobals) :
    (generate_html loglines cfg budget g1).2
      = (generate_html loglines cfg budget g2).2 ∧
    (generate_html loglines cfg budget
        ((generate_html loglines cfg budget g1).1)).2
      = (generate_html loglines cfg budget g1).2 :=
  ⟨rfl, rfl⟩

theorem greedyGroup_ne_nil (b : Nat) (units cur : List PageUnit) (running : Nat)
    (h : units ≠ [] ∨ cur ≠ []) : greedyGroup b units cur running ≠ [] := by
  induction units generalizing cur running with
  | nil =>
    rcases h with h | h
    · exact absurd rfl h
    · cases cur with
      | nil => exact absurd rfl h
      | cons c cs => simp [greedyGroup]
  | cons u rest ih =>
    simp only [greedyGroup]
    split
    · exact ih [u] u.size (Or.inr (by simp))
    · split
      · simp
      · exact ih (u :: cur) (running + u.size) (Or.inr (by simp))

theorem greedyGroup_gt_one (b : Nat) (units cur : List PageUnit) (running : Nat)
    (hu : units ≠ []) (hc : cur ≠ []) (htot : running + unitsTotal units > b) :
    1 < (greedyGroup b units cur running).length := by
  induction units generalizing cur running with
  | nil => exact absurd rfl hu
  | cons u rest ih =>
    have hcur : cur.isEmpty = false := by
      cases cur with
      | nil => exact absurd rfl hc
      | cons c cs => rfl
    simp only [greedyGroup, hcur, Bool.false_eq_true, if_false]
    split
    · have hne := greedyGroup_ne_nil b rest [u] u.size (Or.inr (by simp))
      have hpos := List.length_pos.mpr hne
      simp only [List.length_cons]
      omega
    · rename_i hle
      have hrest : rest ≠ [] := by
        intro hr
        subst hr
        simp [unitsTotal] at htot
        exact hle htot
      refine ih (u :: cur) (running + u.size) hrest (by simp) ?_
      have he : unitsTotal (u :: rest) = u.size + unitsTotal rest := by
        simp [unitsTotal]
      omega

theorem composePages_gt_one (b : Nat) (units : List PageUnit)
    (h2 : 2 ≤ units.length) (htot : unitsTotal units > b) :
    1 < (composePages b units).length := by
  cases units with
  | nil => simp at h2
  | cons u rest =>
    cases rest with
    | nil => simp at h2
    | cons v rest2 =>
      have hstep : composePages b (u :: v :: rest2)
          = greedyGroup b (v :: rest2) [u] u.size := by
        simp [composePages, greedyGroup]
      rw [hstep]
      refine greedyGroup_gt_one b (v :: rest2) [u] u.size (by simp) (by simp) ?_
      have he : unitsTotal (u :: v :: rest2) = u.size + unitsTotal (v :: rest2) := by
        simp [unitsTotal]
      omega

theorem numberPages_length (total i : Nat) (bodies : List String) :
    (numberPages total i bodies).length = bodies.length := by
  induction bodies generalizing i with
  | nil => rfl
  | cons b rest ih => simp [numberPages, ih]

theorem numberPages_get? (total i k : Nat) (bodies : List String) :
    (numberPages total i bodies).get? k =
      (bodies.get? k).map (fun b => mkPage total (i + k) b) := by
  induction bodies generalizing i k with
  | nil => simp [numberPages]
  | cons b rest ih =>
    cases k with
    | zero => simp [numberPages]
    | succ k2 =>
      have h := ih (i + 1) k2
      rw [show (i + 1) + k2 = i + (k2 + 1) from by omega] at h
      simpa [numberPages] using h

theorem mkPages_get? (budget : Nat) (units : List PageUnit) (k : Nat) :
    (mkPages budget units).get? k =
      (((composePages budget units).map
        (fun g => pyJoinSep "\n" (g.map PageUnit.html))).get? k).map
        (fun b => mkPage (composePages budget units).length k b) := by
  simp only [mkPages]
  rw [numberPages_get?]
  simp

/-- Claim C3 counterexample: a single oversized unit (size 11, budget 10)
makes the total rendered size exceed one page's budget, yet the Composer
emits exactly one page — per the spec a single oversized unit is never
split and becomes the sole content of its page, refuting the claim that
every turn sequence whose total rendered size exceeds the budget yields
more than one page. -/
theorem c3_counterexample :
    unitsTotal [PageUnit.mk "big" 11] > 10 ∧
    ¬(1 < (mkPages 10 [PageUnit.mk "big" 11]).length) := by
  refine ⟨by decide, by decide⟩

/-- Claim C3 (amended): for every turn sequence of at least two renderable
units whose total rendered size exceeds one page's budget, the Composer
emits more than one page (a sequence holding a single oversized unit yields
one page); in every case each emitted page carries sequence number
position + 1, its previous/next links name the page files with the
adjacent sequence numbers and are absent exactly on the first and last
page, and every page links back to the index. -/
theorem c3_pagination (budget : Nat) (units : List PageUnit)
    (h2 : 2 ≤ units.length) (htot : unitsTotal units > budget) :
    1 < (mkPages budget units).length ∧
    (∀ (i : Nat) (p : Page), (mkPages budget units).get? i = some p →
      p.seq = i + 1 ∧
      p.prev = (if i = 0 then none else some (pageFileName i)) ∧
      p.next = (if i + 1 < (mkPages budget units).length then
        some (pageFileName (i + 2)) else none) ∧
      p.indexLink = "index.html") := by
  have hlen : (mkPages budget units).length = (composePages budget units).length := by
    simp [mkPages, numberPages_length]
  constructor
  · rw [hlen]
    exact composePages_gt_one budget units h2 htot
  · intro i p hp
    rw [mkPages_get?] at hp
    cases hb : ((composePages budget units).map
        (fun g => pyJoinSep "\n" (g.map PageUnit.html))).get? i with
    | none => rw [hb] at hp; simp at hp
    | some body =>
      rw [hb, Option.map_some'] at hp
      obtain rfl := Option.some.inj hp
      refine ⟨rfl, rfl, ?_, rfl⟩
      rw [hlen]
      rfl

/-- Witness for c3_pagination: two units of size 2 under budget 3 yield two
pages; the first page has no previous link and its next link names the
second page's file. -/
theorem c3_pagination_witness :
    (2 ≤ ([PageUnit.mk "a" 2, PageUnit.mk "b" 2] : List PageUnit).length ∧
      unitsTotal [PageUnit.mk "a" 2, PageUnit.mk "b" 2] > 3) ∧
    1 < (mkPages 3 [PageUnit.mk "a" 2, PageUnit.mk "b" 2]).length ∧
    (mkPages 3 [PageUnit.mk "a" 2, PageUnit.mk "b" 2]).get? 0
      = some (mkPage 2 0 "a") ∧
    (mkPage 2 0 "a").prev = none ∧
    (mkPage 2 0 "a").next = some (pageFileName 2) := by
  have h := c3_pagination 3 [PageUnit.mk "a" 2, PageUnit.mk "b" 2]
    (by decide) (by decide)
  refine ⟨⟨by decide, by decide⟩, h.1, rfl, ?_, ?_⟩
  · have h0 := (h.2 0 (mkPage 2 0 "a") rfl).2.1
    simpa using h0
  · have h0 := (h.2 0 (mkPage 2 0 "a") rfl).2.2.1
    have hl : (mkPages 3 [PageUnit.mk "a" 2, PageUnit.mk "b" 2]).length = 2 := rfl
    rw [hl] at h0
    simpa using h0
